import Mathlib

/-!
Verification of the rtsc concurrency toolkit specification against a shallow
embedding of its source.  The embedding translates, module by module:

* `data_policy` (delivery classes, the policy capability, push outcomes);
* `pdeque` (the policy-governed bounded deque);
* `pi` (the condvar notify backoff loop);
* `event_map` (closest-key lookup and cleanup);
* `base_channel` (sync channel close/notify paths);
* `base_channel_async` (non-blocking ops vs. waker queues);
* `cell` (rendezvous cells: the blocking get loop and the closed flag).

Rust `VecDeque`s are modelled as Lean `List`s (front = head), `retain` as
`List.filter` / first-match removal, and the stable slice sort as
`List.mergeSort`.  The ring-buffer rotation that `pdeque`'s ordered-mode
sort performs before the slice sort is modelled explicitly by `RingDeque`.
-/

namespace Rtsc

/-- Delivery policy classes, from `data_policy::DeliveryPolicy`. -/
inductive DeliveryPolicy where
  | Always
  | Latest
  | Optional
  | Single
  | SingleOptional
  deriving DecidableEq, Repr

/-- The `DataDeliveryPolicy` capability of a payload type `α`:
`delivery_policy`, `priority`, `eq_kind`, `is_expired`, all pure. -/
structure Policy (α : Type) where
  deliveryPolicy : α → DeliveryPolicy
  priority : α → Nat
  eqKind : α → α → Bool
  isExpired : α → Bool

/-- `DataDeliveryPolicy::is_delivery_policy_single`. -/
def Policy.isSingle (P : Policy α) (v : α) : Bool :=
  P.deliveryPolicy v == DeliveryPolicy.Single
    || P.deliveryPolicy v == DeliveryPolicy.SingleOptional

/-- `DataDeliveryPolicy::is_delivery_policy_optional`. -/
def Policy.isOptionalClass (P : Policy α) (v : α) : Bool :=
  P.deliveryPolicy v == DeliveryPolicy.Optional
    || P.deliveryPolicy v == DeliveryPolicy.SingleOptional

/-- `data_policy::StorageTryPushOutput`. -/
inductive StorageTryPushOutput (α : Type) where
  | Pushed
  | Skipped
  | Full (value : α)
  deriving DecidableEq, Repr

/-- `pdeque::Deque`, idealized: the Rust `VecDeque` is modelled by its
logical sequence only (head = front), so the ordered-mode sort becomes a
stable sort of the logical sequence.  This is accurate except for the
relative order of equal-priority elements once the ring buffer has wrapped;
`RingDeque` below carries the physical head index and models the source's
rotate-then-sort exactly.  The theorems proved over this structure do not
depend on same-priority element order (lengths, membership, expiry, and the
`Full` path, which never reaches the sort). -/
structure Deque (α : Type) where
  data : List α
  capacity : Nat
  ordered : Bool
  deriving Repr, DecidableEq

/-- `Deque::bounded`. -/
def Deque.bounded (α : Type) (capacity : Nat) : Deque α :=
  { data := [], capacity := capacity, ordered := false }

/-- `Deque::set_ordering`. -/
def Deque.setOrdering (dq : Deque α) (v : Bool) : Deque α :=
  { dq with ordered := v }

/-- A stable ascending sort by `priority()` (Rust's slice `sort_by` is a
stable merge sort).  This is the slice-sort step of
`pdeque::sort_by_priority`; the full source function also rotates the
wrapped ring buffer first — see `ringSortByPriority` for the faithful
composition. -/
def sortByPriority (P : Policy α) (l : List α) : List α :=
  l.mergeSort (fun a b => P.priority a ≤ P.priority b)

/-- The `push!` macro body of `Deque::try_push` on the idealized model:
append at the back, then re-sort when ordering is enabled. -/
def Deque.pushBack (P : Policy α) (dq : Deque α) (v : α) : Deque α :=
  { dq with data :=
      if dq.ordered then sortByPriority P (dq.data ++ [v]) else dq.data ++ [v] }

/-- The `retain`-with-flag idiom of `Deque::try_push` step 4: remove the
first (frontmost) element satisfying `p`, keep everything else. -/
def removeFirst (p : α → Bool) : List α → List α
  | [] => []
  | x :: xs => if p x then xs else x :: removeFirst p xs

/-- `Deque::try_push`, translated clause by clause from `pdeque.rs`
lines 41-106 over the idealized logical model (see `RingDeque.tryPush` for
the layout-faithful ordered-mode sort).  Returns the outcome together with
the deque after the call. -/
def Deque.tryPush (P : Policy α) (dq : Deque α) (value : α) :
    StorageTryPushOutput α × Deque α :=
  if P.isExpired value then (StorageTryPushOutput.Pushed, dq)
  else
    let dq :=
      if P.isSingle value then
        { dq with data :=
            dq.data.filter (fun d => !P.eqKind d value && !P.isExpired d) }
      else dq
    if dq.data.length < dq.capacity then
      (StorageTryPushOutput.Pushed, dq.pushBack P value)
    else
      match P.deliveryPolicy value with
      | DeliveryPolicy.Always | DeliveryPolicy.Single =>
        let dq :=
          { dq with data :=
              removeFirst (fun d => P.isExpired d || P.isOptionalClass d) dq.data }
        if dq.data.length < dq.capacity then
          (StorageTryPushOutput.Pushed, dq.pushBack P value)
        else (StorageTryPushOutput.Full value, dq)
      | DeliveryPolicy.Latest =>
        let dq :=
          { dq with data :=
              (removeFirst
                (fun d => P.isExpired d || P.isOptionalClass d || P.eqKind d value)
                dq.data) }
        if dq.data.length < dq.capacity then
          (StorageTryPushOutput.Pushed, dq.pushBack P value)
        else (StorageTryPushOutput.Full value, dq)
      | DeliveryPolicy.Optional | DeliveryPolicy.SingleOptional =>
        (StorageTryPushOutput.Skipped, dq)

/-- The pop loop of `Deque::get`: pop the front element; skip it if expired,
return it otherwise; `none` when the deque empties.  `dq` carries the
unchanged `capacity`/`ordered` fields, the list argument is the remaining
sequence being consumed. -/
def Deque.getGo (P : Policy α) (dq : Deque α) : List α → Option α × Deque α
  | [] => (none, { dq with data := [] })
  | x :: xs =>
    if P.isExpired x then Deque.getGo P dq xs
    else (some x, { dq with data := xs })

/-- `Deque::get`: pop from the front until a non-expired element is found
(returning it) or the deque empties.  Returns the value with the deque
after the call. -/
def Deque.get (P : Policy α) (dq : Deque α) : Option α × Deque α :=
  Deque.getGo P dq dq.data

/-- `Deque::clear`. -/
def Deque.clear (dq : Deque α) : Deque α :=
  { dq with data := [] }

/-- `Deque::len`. -/
def Deque.len (dq : Deque α) : Nat :=
  dq.data.length

/-- `Deque::is_full`. -/
def Deque.isFull (dq : Deque α) : Bool :=
  dq.len == dq.capacity

/-- `Deque::is_empty`. -/
def Deque.isEmpty (dq : Deque α) : Bool :=
  dq.data.isEmpty

/-!  The admission algorithm as the specification states it (§4.3 steps 1-4),
written independently of the source: single-kind removal phrased as "remove
every element that is same-kind or expired", and the step-4 eviction as
"drop the frontmost candidate" located by `findIdx?`/`eraseIdx`.  -/

/-- Spec step 4: drop the frontmost element satisfying `p`, reporting whether
one was dropped: keep the prefix of non-candidates, remove the first
candidate, keep the rest. -/
def dropFrontmost (p : α → Bool) (l : List α) : Option (List α) :=
  match l.dropWhile (fun x => !p x) with
  | [] => none
  | _ :: rest => some (l.takeWhile (fun x => !p x) ++ rest)

/-- Spec step 3: append `v`; when ordering is enabled, stably re-sort
ascending by priority. -/
def specAdmit (P : Policy α) (dq : Deque α) (v : α) : Deque α :=
  { dq with data :=
      if dq.ordered then sortByPriority P (dq.data ++ [v]) else dq.data ++ [v] }

/-- The admission algorithm exactly as the original claim states it —
step 3 reading "stably re-sorted ascending by priority" as the stable sort
of the logical sequence: expired values are dropped as `Pushed`; `Single*`
first removes every element same-kind with `v` or expired; if room, admit;
on a full deque `Always`/`Single` drop the frontmost expired-or-`Optional*`
element (`Latest` also accepts a same-kind element as candidate) and admit
if room was made, `Optional*` skip, and `Full(v)` when nothing could be
dropped.  The counterexample below shows the source deviates from this in
the ordered mode once the ring buffer has wrapped. -/
def Deque.tryPushSpec (P : Policy α) (dq : Deque α) (value : α) :
    StorageTryPushOutput α × Deque α :=
  if P.isExpired value then (StorageTryPushOutput.Pushed, dq)
  else
    let dq :=
      if P.isSingle value then
        { dq with data :=
            dq.data.filter (fun d => !(P.eqKind d value || P.isExpired d)) }
      else dq
    if dq.data.length < dq.capacity then
      (StorageTryPushOutput.Pushed, specAdmit P dq value)
    else
      match P.deliveryPolicy value with
      | DeliveryPolicy.Always | DeliveryPolicy.Single =>
        match dropFrontmost (fun d => P.isExpired d || P.isOptionalClass d) dq.data with
        | some l =>
          let dq := { dq with data := l }
          if dq.data.length < dq.capacity then
            (StorageTryPushOutput.Pushed, specAdmit P dq value)
          else (StorageTryPushOutput.Full value, dq)
        | none => (StorageTryPushOutput.Full value, dq)
      | DeliveryPolicy.Latest =>
        match dropFrontmost
            (fun d => P.isExpired d || P.isOptionalClass d || P.eqKind d value)
            dq.data with
        | some l =>
          let dq := { dq with data := l }
          if dq.data.length < dq.capacity then
            (StorageTryPushOutput.Pushed, specAdmit P dq value)
          else (StorageTryPushOutput.Full value, dq)
        | none => (StorageTryPushOutput.Full value, dq)
      | DeliveryPolicy.Optional | DeliveryPolicy.SingleOptional =>
        (StorageTryPushOutput.Skipped, dq)

/-- `removeFirst` (the source's `retain` with a removed-flag) agrees with the
spec's frontmost-candidate removal. -/
lemma removeFirst_eq_dropFrontmost (p : α → Bool) (l : List α) :
    removeFirst p l = (dropFrontmost p l).getD l := by
  induction l with
  | nil => rfl
  | cons x xs ih =>
    by_cases hx : p x
    · simp [removeFirst, dropFrontmost, List.dropWhile, List.takeWhile, hx]
    · simp only [removeFirst, hx, Bool.false_eq_true, if_false]
      rw [ih]
      simp only [dropFrontmost, List.dropWhile, List.takeWhile, hx,
        Bool.not_false, if_true]
      cases h : xs.dropWhile (fun y => !p y) with
      | nil => simp
      | cons z zs => simp

/-- When nothing was dropped, the sequence is unchanged. -/
lemma dropFrontmost_none (p : α → Bool) (l : List α)
    (h : dropFrontmost p l = none) : removeFirst p l = l := by
  rw [removeFirst_eq_dropFrontmost, h]
  rfl

/-- Dropping the frontmost candidate shortens the sequence by one. -/
lemma length_dropFrontmost (p : α → Bool) (l l' : List α)
    (h : dropFrontmost p l = some l') : l'.length + 1 = l.length := by
  unfold dropFrontmost at h
  cases hd : l.dropWhile (fun x => !p x) with
  | nil => rw [hd] at h; exact absurd h (by simp)
  | cons z zs =>
    rw [hd] at h
    simp only [Option.some_inj] at h
    subst h
    have := List.takeWhile_append_dropWhile (p := fun x => !p x) (l := l)
    have hlen : (l.takeWhile (fun x => !p x)).length + (z :: zs).length
        = l.length := by
      rw [← hd, ← List.length_append, List.takeWhile_append_dropWhile]
    simp only [List.length_cons, List.length_append] at hlen ⊢
    omega

/-- The two single-kind removal predicates agree. -/
lemma single_filter_pred_eq (P : Policy α) (value : α) :
    (fun d => !P.eqKind d value && !P.isExpired d)
      = (fun d => !(P.eqKind d value || P.isExpired d)) := by
  funext d
  cases P.eqKind d value <;> cases P.isExpired d <;> rfl

/-- When a frontmost candidate exists, `removeFirst` drops exactly it. -/
lemma dropFrontmost_some (p : α → Bool) (l l' : List α)
    (h : dropFrontmost p l = some l') : removeFirst p l = l' := by
  rw [removeFirst_eq_dropFrontmost, h]
  rfl

/-!  The layout-faithful deque.  `VecDeque::with_capacity(c)` allocates a
ring of exactly `c` slots (Rust's `RawVec` allocates the requested amount
for sized payloads) and `try_push` admits only below `capacity`, so the
buffer never reallocates; the physical state is then the logical sequence
plus `head`, the ring index of the logical front.  Operation effects on
`head`: `push_back` leaves it; `pop_front` advances it by one modulo
`capacity`; `retain` compacts kept elements toward the logical front,
leaving it.  The wrapped back slice is the last `head + len - capacity`
logical elements (empty when `head + len ≤ capacity`). -/

/-- `pdeque::Deque` with the `VecDeque` ring layout made explicit. -/
structure RingDeque (α : Type) where
  data : List α
  capacity : Nat
  ordered : Bool
  head : Nat
  deriving Repr, DecidableEq

/-- `Deque::bounded` (fresh buffer, front at slot 0). -/
def RingDeque.bounded (α : Type) (capacity : Nat) : RingDeque α :=
  { data := [], capacity := capacity, ordered := false, head := 0 }

/-- `Deque::set_ordering`. -/
def RingDeque.setOrdering (dq : RingDeque α) (v : Bool) : RingDeque α :=
  { dq with ordered := v }

/-- Length of the wrapped back slice (`Nat` subtraction: 0 when the buffer
is contiguous). -/
def RingDeque.backLen (dq : RingDeque α) : Nat :=
  dq.head + dq.data.length - dq.capacity

/-- `pdeque::sort_by_priority` (pdeque.rs lines 143-149), faithfully:
`rotate_right(back.len())` moves the wrapped suffix to the logical front —
so the sorted sequence is `back ++ front`, not the logical sequence — and
the now-contiguous slice is stably sorted ascending by priority.
`VecDeque::rotate_right(n)` takes the smaller-move path: with `n ≤ len − n`
it shifts the `n` wrapped elements (`head` becomes `capacity − len`),
otherwise it shifts the other `len − n` elements (`head` becomes 0); either
way the buffer ends contiguous with logical order `back ++ front`. -/
def ringSortByPriority (P : Policy α) (dq : RingDeque α) : RingDeque α :=
  { dq with
      data := sortByPriority P
        (dq.data.drop (dq.data.length - dq.backLen)
          ++ dq.data.take (dq.data.length - dq.backLen)),
      head :=
        if dq.capacity < dq.head + dq.data.length then
          if 2 * dq.backLen ≤ dq.data.length then dq.capacity - dq.data.length
          else 0
        else dq.head }

/-- The `push!` macro body of `Deque::try_push` on the faithful model:
`push_back` leaves `head`; the ordered-mode sort rotates and sorts. -/
def RingDeque.pushBack (P : Policy α) (dq : RingDeque α) (v : α) :
    RingDeque α :=
  let dq := { dq with data := dq.data ++ [v] }
  if dq.ordered then ringSortByPriority P dq else dq

/-- `Deque::try_push` on the faithful model — same control flow as
`Deque.tryPush`; both `retain` passes compact in place and leave `head`
unchanged. -/
def RingDeque.tryPush (P : Policy α) (dq : RingDeque α) (value : α) :
    StorageTryPushOutput α × RingDeque α :=
  if P.isExpired value then (StorageTryPushOutput.Pushed, dq)
  else
    let dq :=
      if P.isSingle value then
        { dq with data :=
            dq.data.filter (fun d => !P.eqKind d value && !P.isExpired d) }
      else dq
    if dq.data.length < dq.capacity then
      (StorageTryPushOutput.Pushed, dq.pushBack P value)
    else
      match P.deliveryPolicy value with
      | DeliveryPolicy.Always | DeliveryPolicy.Single =>
        let dq :=
          { dq with data :=
              removeFirst (fun d => P.isExpired d || P.isOptionalClass d) dq.data }
        if dq.data.length < dq.capacity then
          (StorageTryPushOutput.Pushed, dq.pushBack P value)
        else (StorageTryPushOutput.Full value, dq)
      | DeliveryPolicy.Latest =>
        let dq :=
          { dq with data :=
              (removeFirst
                (fun d => P.isExpired d || P.isOptionalClass d || P.eqKind d value)
                dq.data) }
        if dq.data.length < dq.capacity then
          (StorageTryPushOutput.Pushed, dq.pushBack P value)
        else (StorageTryPushOutput.Full value, dq)
      | DeliveryPolicy.Optional | DeliveryPolicy.SingleOptional =>
        (StorageTryPushOutput.Skipped, dq)

/-- The pop loop of `Deque::get` on the faithful model: every `pop_front`
advances `head` by one modulo `capacity`. -/
def RingDeque.getGo (P : Policy α) (cap : Nat) (ord : Bool) (hd : Nat) :
    List α → Option α × RingDeque α
  | [] => (none, { data := [], capacity := cap, ordered := ord, head := hd })
  | x :: xs =>
    if P.isExpired x then RingDeque.getGo P cap ord ((hd + 1) % cap) xs
    else (some x,
      { data := xs, capacity := cap, ordered := ord, head := (hd + 1) % cap })

/-- `Deque::get` on the faithful model. -/
def RingDeque.get (P : Policy α) (dq : RingDeque α) :
    Option α × RingDeque α :=
  RingDeque.getGo P dq.capacity dq.ordered dq.head dq.data

/-- The amended admit step: append `v`; when ordering is enabled, rotate the
wrapped ring suffix to the front (`List.rotate` by `len − backLen` is that
right-rotation) and stably sort ascending by priority — ties follow the
rotated ring order, not insertion order. -/
def ringSpecAdmit (P : Policy α) (dq : RingDeque α) (v : α) : RingDeque α :=
  let l := dq.data ++ [v]
  if dq.ordered then
    { dq with
        data := sortByPriority P
          (l.rotate (l.length - (dq.head + l.length - dq.capacity))),
        head :=
          if dq.capacity < dq.head + l.length then
            if 2 * (dq.head + l.length - dq.capacity) ≤ l.length then
              dq.capacity - l.length
            else 0
          else dq.head }
  else { dq with data := l }

/-- The amended claim's admission algorithm, written as in
`Deque.tryPushSpec` (filter-phrased `Single*` purge, frontmost-candidate
eviction via `dropFrontmost`) but with the admit step sorting the rotated
ring sequence. -/
def RingDeque.tryPushSpec (P : Policy α) (dq : RingDeque α) (value : α) :
    StorageTryPushOutput α × RingDeque α :=
  if P.isExpired value then (StorageTryPushOutput.Pushed, dq)
  else
    let dq :=
      if P.isSingle value then
        { dq with data :=
            dq.data.filter (fun d => !(P.eqKind d value || P.isExpired d)) }
      else dq
    if dq.data.length < dq.capacity then
      (StorageTryPushOutput.Pushed, ringSpecAdmit P dq value)
    else
      match P.deliveryPolicy value with
      | DeliveryPolicy.Always | DeliveryPolicy.Single =>
        match dropFrontmost (fun d => P.isExpired d || P.isOptionalClass d) dq.data with
        | some l =>
          let dq := { dq with data := l }
          if dq.data.length < dq.capacity then
            (StorageTryPushOutput.Pushed, ringSpecAdmit P dq value)
          else (StorageTryPushOutput.Full value, dq)
        | none => (StorageTryPushOutput.Full value, dq)
      | DeliveryPolicy.Latest =>
        match dropFrontmost
            (fun d => P.isExpired d || P.isOptionalClass d || P.eqKind d value)
            dq.data with
        | some l =>
          let dq := { dq with data := l }
          if dq.data.length < dq.capacity then
            (StorageTryPushOutput.Pushed, ringSpecAdmit P dq value)
          else (StorageTryPushOutput.Full value, dq)
        | none => (StorageTryPushOutput.Full value, dq)
      | DeliveryPolicy.Optional | DeliveryPolicy.SingleOptional =>
        (StorageTryPushOutput.Skipped, dq)

/-- The faithful `push!` and the amended admit step coincide: the rotation
by `len − backLen` is exactly "wrapped suffix first". -/
lemma ringPushBack_eq_ringSpecAdmit (P : Policy α) (dq : RingDeque α) (v : α) :
    dq.pushBack P v = ringSpecAdmit P dq v := by
  unfold RingDeque.pushBack ringSpecAdmit ringSortByPriority RingDeque.backLen
  dsimp only
  split
  · rw [List.rotate_eq_drop_append_take (Nat.sub_le _ _)]
  · rfl

/-- C1 (amended): `Deque::try_push` follows the admission algorithm with the
ordered-mode sort as the source performs it: an expired `v` is reported
`Pushed` without being stored; a `Single*` `v` first purges every same-kind
or expired element; with room, `v` is appended and, when ordering is
enabled, the wrapped ring suffix is rotated to the front and the sequence is
then stably sorted ascending by priority (ties follow the rotated ring
order, not insertion order, once the buffer has wrapped); on a full deque
`Always`/`Single` evict the frontmost expired-or-`Optional*` element and
admit if room was made, `Latest` additionally accepts a same-kind element as
the eviction candidate, `Optional`/`SingleOptional` report `Skipped`, and
the result is `Full(v)` when nothing could be evicted. -/
theorem ringTryPush_follows_amended_spec (P : Policy α) (dq : RingDeque α)
    (v : α) : dq.tryPush P v = dq.tryPushSpec P v := by
  unfold RingDeque.tryPush RingDeque.tryPushSpec
  rw [single_filter_pred_eq]
  split
  · rfl
  · dsimp only
    generalize (if P.isSingle v = true then
        { dq with data :=
            dq.data.filter (fun d => !(P.eqKind d v || P.isExpired d)) }
      else dq) = d
    split
    · rw [ringPushBack_eq_ringSpecAdmit]
    · rename_i hlen
      cases hdp : P.deliveryPolicy v <;> dsimp only
      case Always =>
        cases hdf : dropFrontmost
            (fun x => P.isExpired x || P.isOptionalClass x) d.data with
        | none =>
          rw [dropFrontmost_none _ _ hdf]
          simp [hlen, hdf]
        | some l' =>
          rw [dropFrontmost_some _ _ _ hdf]
          simp [hdf, ringPushBack_eq_ringSpecAdmit]
      case Single =>
        cases hdf : dropFrontmost
            (fun x => P.isExpired x || P.isOptionalClass x) d.data with
        | none =>
          rw [dropFrontmost_none _ _ hdf]
          simp [hlen, hdf]
        | some l' =>
          rw [dropFrontmost_some _ _ _ hdf]
          simp [hdf, ringPushBack_eq_ringSpecAdmit]
      case Latest =>
        cases hdf : dropFrontmost
            (fun x => P.isExpired x || P.isOptionalClass x || P.eqKind x v)
            d.data with
        | none =>
          rw [dropFrontmost_none _ _ hdf]
          simp [hlen, hdf]
        | some l' =>
          rw [dropFrontmost_some _ _ _ hdf]
          simp [hdf, ringPushBack_eq_ringSpecAdmit]

/-- If the doomed-to-fail eviction scan did not shorten the sequence below
capacity, it did not touch it at all. -/
lemma removeFirst_full_eq (q : α → Bool) (D : Deque α)
    (hle : D.data.length ≤ D.capacity)
    (hge2 : ¬ (removeFirst q D.data).length < D.capacity) :
    removeFirst q D.data = D.data := by
  cases hdf : dropFrontmost q D.data with
  | none => exact dropFrontmost_none _ _ hdf
  | some l' =>
    have hl := length_dropFrontmost _ _ _ hdf
    rw [dropFrontmost_some _ _ _ hdf] at hge2 ⊢
    omega

lemma Deque.ext_fields (a b : Deque α) (h1 : a.data = b.data)
    (h2 : a.capacity = b.capacity) (h3 : a.ordered = b.ordered) : a = b := by
  cases a
  cases b
  simp_all

lemma filter_of_length_eq (p : α → Bool) (l : List α)
    (h : (l.filter p).length = l.length) : l.filter p = l := by
  rw [List.filter_eq_self]
  simpa using h

/-- C5: failure atomicity of admission.  When `try_push` fails with
`Full`, the returned value is the input value and the deque (contents and
order) is exactly as before the call — also for `Single`/`SingleOptional`
values.  The hypothesis `len ≤ capacity` is the deque's I1 invariant, which
every reachable state satisfies. -/
theorem tryPush_full_is_failure_atomic (P : Policy α) (dq : Deque α)
    (v w : α) (dq' : Deque α) (hcap : dq.data.length ≤ dq.capacity)
    (h : dq.tryPush P v = (StorageTryPushOutput.Full w, dq')) :
    w = v ∧ dq' = dq := by
  unfold Deque.tryPush at h
  split at h
  · simp at h
  · dsimp only at h
    generalize hD : (if P.isSingle v = true then
        { dq with data :=
            dq.data.filter (fun d => !P.eqKind d v && !P.isExpired d) }
      else dq) = D at h
    have hDcap : D.capacity = dq.capacity := by
      rw [← hD]; split <;> rfl
    have hDord : D.ordered = dq.ordered := by
      rw [← hD]; split <;> rfl
    have hDlen : D.data.length ≤ dq.data.length := by
      rw [← hD]; split
      · exact List.length_filter_le _ _
      · exact Nat.le_refl _
    have hDeq : D.data.length = dq.data.length → D.data = dq.data := by
      rw [← hD]; split
      · intro hh
        exact filter_of_length_eq _ _ hh
      · intro _
        rfl
    split at h
    · simp at h
    · rename_i hlen
      have hfull : D.data.length = D.capacity := by omega
      have hData : D.data = dq.data := by
        apply hDeq
        omega
      have hDdq : D = dq := Deque.ext_fields _ _ hData hDcap hDord
      split at h
      all_goals first
        | simp at h
        | (split at h
           · simp at h
           · rename_i hlen2
             rw [removeFirst_full_eq _ _ (Nat.le_of_eq hfull) hlen2] at h
             obtain ⟨hw, hdq⟩ := Prod.mk.injEq .. ▸ h
             cases hw
             exact ⟨rfl, by rw [← hdq, hDdq]⟩)

/-- A concrete payload carrying its own policy metadata, used to evaluate the
embedded operations on explicit inputs. -/
structure Msg where
  policy : DeliveryPolicy
  prio : Nat
  kind : Nat
  expired : Bool
  deriving DecidableEq, Repr

/-- The capability instance for `Msg`. -/
def msgPolicy : Policy Msg :=
  { deliveryPolicy := Msg.policy
    priority := Msg.prio
    eqKind := fun a b => a.kind == b.kind
    isExpired := Msg.expired }

/-- Witness for C5: a full capacity-1 deque holding an `Always` element
rejects a `Single` value of another kind, leaving the deque untouched. -/
theorem tryPush_full_is_failure_atomic_witness :
    let a : Msg := { policy := .Always, prio := 100, kind := 0, expired := false }
    let v : Msg := { policy := .Single, prio := 100, kind := 1, expired := false }
    let dq : Deque Msg := { data := [a], capacity := 1, ordered := false }
    (StorageTryPushOutput.Full v, dq) = (StorageTryPushOutput.Full v, dq) ∧
      (v = v ∧ dq = dq) := by
  refine ⟨rfl, ?_⟩
  exact tryPush_full_is_failure_atomic msgPolicy
    { data := [{ policy := .Always, prio := 100, kind := 0, expired := false }],
      capacity := 1, ordered := false }
    { policy := .Single, prio := 100, kind := 1, expired := false }
    { policy := .Single, prio := 100, kind := 1, expired := false }
    { data := [{ policy := .Always, prio := 100, kind := 0, expired := false }],
      capacity := 1, ordered := false }
    (by decide) (by decide)

/-- Sorting an already priority-sorted sequence is the identity (stability
of the merge sort). -/
lemma sortByPriority_of_sorted (P : Policy α) (l : List α)
    (h : l.Pairwise (fun a b => P.priority a ≤ P.priority b)) :
    sortByPriority P l = l := by
  unfold sortByPriority
  exact List.mergeSort_of_sorted (by simpa using h)

/-- Equal-priority `Always` messages of distinct kinds, inputs of the
ordered-mode trace below. -/
def msgA : Msg := { policy := DeliveryPolicy.Always, prio := 100, kind := 0, expired := false }

/-- Second trace message. -/
def msgB : Msg := { policy := DeliveryPolicy.Always, prio := 100, kind := 1, expired := false }

/-- Third trace message. -/
def msgC : Msg := { policy := DeliveryPolicy.Always, prio := 100, kind := 2, expired := false }

/-- Fourth trace message. -/
def msgD : Msg := { policy := DeliveryPolicy.Always, prio := 100, kind := 3, expired := false }

/-- Counterexample to C1 as stated: with ordering enabled, capacity 3 and
equal priorities, the reachable trace push `a`, push `b`, push `c`, pop,
push `d` wraps the ring buffer (`d` lands in slot 0 while the front is at
slot 1).  `sort_by_priority` rotates the wrapped suffix `[d]` to the front
before the stable slice sort, so `try_push` leaves the deque in order
`[d, b, c]` — while the claim's "stably re-sorted ascending by priority"
(`Deque.tryPushSpec`, insertion order among equal priorities) requires
`[b, c, d]`. -/
theorem tryPush_ordered_stability_counterexample :
    (((RingDeque.bounded Msg 3).setOrdering true).tryPush msgPolicy msgA).2
        = { data := [msgA], capacity := 3, ordered := true, head := 0 } ∧
    (RingDeque.tryPush msgPolicy
        { data := [msgA], capacity := 3, ordered := true, head := 0 } msgB).2
        = { data := [msgA, msgB], capacity := 3, ordered := true, head := 0 } ∧
    (RingDeque.tryPush msgPolicy
        { data := [msgA, msgB], capacity := 3, ordered := true, head := 0 } msgC).2
        = { data := [msgA, msgB, msgC], capacity := 3, ordered := true, head := 0 } ∧
    RingDeque.get msgPolicy
        { data := [msgA, msgB, msgC], capacity := 3, ordered := true, head := 0 }
        = (some msgA,
            { data := [msgB, msgC], capacity := 3, ordered := true, head := 1 }) ∧
    (RingDeque.tryPush msgPolicy
        { data := [msgB, msgC], capacity := 3, ordered := true, head := 1 } msgD).2
        = { data := [msgD, msgB, msgC], capacity := 3, ordered := true, head := 0 } ∧
    (Deque.tryPushSpec msgPolicy
        { data := [msgB, msgC], capacity := 3, ordered := true } msgD).2.data
        = [msgB, msgC, msgD] ∧
    [msgD, msgB, msgC] ≠ [msgB, msgC, msgD] := by
  refine ⟨?_, ?_, ?_, by decide, ?_, ?_, by decide⟩
  · simp [RingDeque.bounded, RingDeque.setOrdering, RingDeque.tryPush,
      RingDeque.pushBack, ringSortByPriority, RingDeque.backLen, msgPolicy,
      Policy.isSingle, msgA, sortByPriority_of_sorted]
  · simp [RingDeque.tryPush, RingDeque.pushBack, ringSortByPriority,
      RingDeque.backLen, msgPolicy, Policy.isSingle, msgA, msgB,
      sortByPriority_of_sorted]
  · simp [RingDeque.tryPush, RingDeque.pushBack, ringSortByPriority,
      RingDeque.backLen, msgPolicy, Policy.isSingle, msgA, msgB, msgC,
      sortByPriority_of_sorted]
  · simp [RingDeque.tryPush, RingDeque.pushBack, ringSortByPriority,
      RingDeque.backLen, msgPolicy, Policy.isSingle, msgB, msgC, msgD,
      sortByPriority_of_sorted]
  · simp [Deque.tryPushSpec, specAdmit, msgPolicy, Policy.isSingle, msgB,
      msgC, msgD, sortByPriority_of_sorted]

/-! Capacity invariant (I1) and the pop contract (I2). -/

/-- The operations a user can run against a policy deque. -/
inductive DequeOp (α : Type) where
  | push (v : α)
  | get
  | clear

/-- State effect of one operation. -/
def Deque.applyOp (P : Policy α) (dq : Deque α) : DequeOp α → Deque α
  | DequeOp.push v => (dq.tryPush P v).2
  | DequeOp.get => (dq.get P).2
  | DequeOp.clear => dq.clear

/-- State after a whole sequence of operations. -/
def Deque.applyOps (P : Policy α) (dq : Deque α) (ops : List (DequeOp α)) :
    Deque α :=
  ops.foldl (Deque.applyOp P) dq

lemma length_removeFirst_le (p : α → Bool) (l : List α) :
    (removeFirst p l).length ≤ l.length := by
  induction l with
  | nil => exact Nat.le_refl _
  | cons x xs ih =>
    by_cases hx : p x <;> simp [removeFirst, hx] <;> omega

lemma length_pushBack (P : Policy α) (dq : Deque α) (v : α) :
    (dq.pushBack P v).data.length = dq.data.length + 1 := by
  simp only [Deque.pushBack]
  split
  · simp [sortByPriority, List.length_mergeSort]
  · simp

lemma tryPush_fields (P : Policy α) (dq : Deque α) (v : α) :
    ((dq.tryPush P v).2).capacity = dq.capacity
      ∧ ((dq.tryPush P v).2).ordered = dq.ordered := by
  unfold Deque.tryPush
  dsimp only
  split
  · exact ⟨rfl, rfl⟩
  · generalize hD : (if P.isSingle v = true then
        { dq with data :=
            dq.data.filter (fun d => !P.eqKind d v && !P.isExpired d) }
      else dq) = D
    have hc : D.capacity = dq.capacity := by rw [← hD]; split <;> rfl
    have ho : D.ordered = dq.ordered := by rw [← hD]; split <;> rfl
    split
    · exact ⟨hc, ho⟩
    · split
      all_goals (try split) <;> exact ⟨hc, ho⟩

lemma tryPush_len_le (P : Policy α) (dq : Deque α) (v : α)
    (h : dq.data.length ≤ dq.capacity) :
    ((dq.tryPush P v).2).data.length ≤ dq.capacity := by
  unfold Deque.tryPush
  dsimp only
  split
  · exact h
  · generalize hD : (if P.isSingle v = true then
        { dq with data :=
            dq.data.filter (fun d => !P.eqKind d v && !P.isExpired d) }
      else dq) = D
    have hc : D.capacity = dq.capacity := by rw [← hD]; split <;> rfl
    have hlen : D.data.length ≤ dq.data.length := by
      rw [← hD]; split
      · exact List.length_filter_le _ _
      · exact Nat.le_refl _
    split
    · rename_i hlt
      dsimp only
      rw [length_pushBack]
      omega
    · split
      all_goals first
        | (dsimp only; omega)
        | (split
           · rename_i hlt
             dsimp only
             rw [length_pushBack]
             dsimp only at hlt ⊢
             omega
           · dsimp only
             have h1 := length_removeFirst_le
               (fun d => P.isExpired d || P.isOptionalClass d) D.data
             have h2 := length_removeFirst_le
               (fun d => P.isExpired d || P.isOptionalClass d || P.eqKind d v) D.data
             omega)

lemma getGo_fields (P : Policy α) (dq : Deque α) (l : List α) :
    ((Deque.getGo P dq l).2).capacity = dq.capacity
      ∧ ((Deque.getGo P dq l).2).ordered = dq.ordered
      ∧ ((Deque.getGo P dq l).2).data.length ≤ l.length := by
  induction l with
  | nil => simp [Deque.getGo]
  | cons x xs ih =>
    by_cases hx : P.isExpired x
    · simp only [Deque.getGo, hx, if_true]
      exact ⟨ih.1, ih.2.1, Nat.le_succ_of_le ih.2.2⟩
    · simp [Deque.getGo, hx]

lemma applyOp_cap (P : Policy α) (dq : Deque α) (op : DequeOp α) :
    (dq.applyOp P op).capacity = dq.capacity := by
  cases op with
  | push v => exact (tryPush_fields P dq v).1
  | get => exact (getGo_fields P dq dq.data).1
  | clear => rfl

lemma applyOp_len (P : Policy α) (dq : Deque α) (op : DequeOp α)
    (h : dq.data.length ≤ dq.capacity) :
    (dq.applyOp P op).data.length ≤ dq.capacity := by
  cases op with
  | push v => exact tryPush_len_le P dq v h
  | get => exact Nat.le_trans (getGo_fields P dq dq.data).2.2 h
  | clear => exact Nat.zero_le _

lemma applyOps_invariant (P : Policy α) (ops : List (DequeOp α)) :
    ∀ dq : Deque α, dq.data.length ≤ dq.capacity →
      (dq.applyOps P ops).data.length ≤ (dq.applyOps P ops).capacity
        ∧ (dq.applyOps P ops).capacity = dq.capacity := by
  induction ops with
  | nil => exact fun dq h => ⟨h, rfl⟩
  | cons op ops ih =>
    intro dq h
    have hstep : (dq.applyOp P op).data.length ≤ (dq.applyOp P op).capacity := by
      rw [applyOp_cap]
      exact applyOp_len P dq op h
    have := ih (dq.applyOp P op) hstep
    exact ⟨this.1, this.2.trans (applyOp_cap P dq op)⟩

/-- C6: capacity invariant.  For a policy deque created with capacity `C > 0`
(with either ordering mode), after any sequence of `try_push`, `get` and
`clear` operations the length never exceeds `C`. -/
theorem deque_len_le_capacity (P : Policy α) (C : Nat) (b : Bool)
    (hC : 0 < C) (ops : List (DequeOp α)) :
    (((Deque.bounded α C).setOrdering b).applyOps P ops).len ≤ C := by
  have h := applyOps_invariant P ops ((Deque.bounded α C).setOrdering b)
    (by simp [Deque.bounded, Deque.setOrdering])
  have hcap : ((Deque.bounded α C).setOrdering b).capacity = C := rfl
  rw [Deque.len]
  exact le_of_le_of_eq h.1 (h.2.trans hcap)

/-- Witness for C6: capacity 2, three admissions and a pop. -/
theorem deque_len_le_capacity_witness :
    0 < 2 ∧
      (((Deque.bounded Msg 2).setOrdering false).applyOps msgPolicy
          [DequeOp.push { policy := .Always, prio := 100, kind := 0, expired := false },
           DequeOp.push { policy := .Always, prio := 100, kind := 1, expired := false },
           DequeOp.push { policy := .Latest, prio := 100, kind := 1, expired := false },
           DequeOp.get]).len ≤ 2 :=
  ⟨by decide, deque_len_le_capacity msgPolicy 2 false (by decide) _⟩

/-- The pop loop is exactly "drop expired prefix, then take the head". -/
lemma getGo_dropWhile (P : Policy α) (dq : Deque α) (l : List α) :
    Deque.getGo P dq l =
      (match l.dropWhile P.isExpired with
       | [] => (none, { dq with data := [] })
       | x :: xs => (some x, { dq with data := xs })) := by
  induction l with
  | nil => rfl
  | cons x xs ih =>
    by_cases hx : P.isExpired x
    · rw [List.dropWhile_cons_of_pos hx]
      simpa [Deque.getGo, hx] using ih
    · rw [List.dropWhile_cons_of_neg (by simpa using hx)]
      simp [Deque.getGo, hx]

lemma dropWhile_head_not (p : α → Bool) (l : List α) (y : α) (ys : List α)
    (h : l.dropWhile p = y :: ys) : p y = false := by
  induction l with
  | nil => simp [List.dropWhile] at h
  | cons x xs ih =>
    by_cases hx : p x
    · rw [List.dropWhile_cons_of_pos hx] at h
      exact ih h
    · rw [List.dropWhile_cons_of_neg (by simpa using hx)] at h
      cases h
      simpa using hx

/-- C7: `Deque::get` pops front elements until a non-expired one is found or
the deque empties, and consequently a consumer never receives an expired
value. -/
theorem get_never_returns_expired (P : Policy α) (dq : Deque α) :
    (dq.get P =
      (match dq.data.dropWhile P.isExpired with
       | [] => (none, dq.clear)
       | x :: xs => (some x, { dq with data := xs }))) ∧
    (∀ x dq', dq.get P = (some x, dq') → P.isExpired x = false) := by
  constructor
  · rw [Deque.get, getGo_dropWhile]
    rfl
  · intro x dq' h
    rw [Deque.get, getGo_dropWhile] at h
    cases hd : dq.data.dropWhile P.isExpired with
    | nil => rw [hd] at h; simp at h
    | cons y ys =>
      rw [hd] at h
      simp only [Prod.mk.injEq, Option.some_inj] at h
      obtain ⟨rfl, -⟩ := h
      exact dropWhile_head_not _ _ _ _ hd

/-- Witness for C7: a deque whose front is expired delivers the fresh value
behind it. -/
theorem get_never_returns_expired_witness :
    let e : Msg := { policy := .Always, prio := 100, kind := 0, expired := true }
    let a : Msg := { policy := .Always, prio := 100, kind := 1, expired := false }
    let dq : Deque Msg := { data := [e, a], capacity := 2, ordered := false }
    msgPolicy.isExpired a = false :=
  (get_never_returns_expired msgPolicy
    { data := [{ policy := .Always, prio := 100, kind := 0, expired := true },
               { policy := .Always, prio := 100, kind := 1, expired := false }],
      capacity := 2, ordered := false }).2
    { policy := .Always, prio := 100, kind := 1, expired := false }
    { data := [], capacity := 2, ordered := false }
    (by decide)

/-!  `pi.rs`: the condvar notify backoff.  The kernel side (the loaded
`waiters` counter and the `futex wake` return value) is an oracle: a notify
loop consumes one observation per iteration. -/

/-- `Backoff::new`: the initial sleep quantum in microseconds. -/
def backoffInit : Nat := 50

/-- `Backoff::backoff`'s state update after one sleep: add 25 µs while below
the 200 µs cap. -/
def backoffStep (n : Nat) : Nat :=
  if n < 200 then n + 25 else n

/-- The sleep duration of the `i`-th backoff call (0-indexed). -/
def nthBackoff (i : Nat) : Nat :=
  backoffStep^[i] backoffInit

/-- `Condvar::notify_one`'s retry loop (pi.rs lines 104-112) on a trace of
kernel observations `(waiters, woken)`.  While `waiters > 0` and `wake(1)`
woke nobody, sleep the current quantum and retry.  Returns the performed
sleep durations and whether the loop exited within the trace. -/
def notifyOneRun (n : Nat) : List (Nat × Nat) → List Nat × Bool
  | [] => ([], false)
  | (w, woken) :: rest =>
    if 0 < w ∧ woken = 0 then
      let r := notifyOneRun (backoffStep n) rest
      (n :: r.1, r.2)
    else ([], true)

/-- `Condvar::notify_all`'s retry loop (pi.rs lines 115-127): load
`to_wake`; stop when it is zero or `wake(to_wake)` reports exactly
`to_wake` woken; otherwise sleep and retry. -/
def notifyAllRun (n : Nat) : List (Nat × Nat) → List Nat × Bool
  | [] => ([], false)
  | (toWake, woken) :: rest =>
    if toWake = 0 ∨ woken = toWake then ([], true)
    else
      let r := notifyAllRun (backoffStep n) rest
      (n :: r.1, r.2)

lemma nthBackoff_closed_form (i : Nat) : nthBackoff i = min (50 + 25 * i) 200 := by
  induction i with
  | zero => rfl
  | succ k ih =>
    have : nthBackoff (k + 1) = backoffStep (nthBackoff k) := by
      simp [nthBackoff, Function.iterate_succ_apply']
    rw [this, ih, backoffStep]
    split <;> omega

lemma iterate_range_cons (f : Nat → Nat) (n : Nat) (m : Nat) :
    n :: (List.range m).map (fun i => f^[i] (f n))
      = (List.range (m + 1)).map (fun i => f^[i] n) := by
  rw [List.range_succ_eq_map, List.map_cons, List.map_map]
  refine congrArg₂ _ rfl ?_
  apply List.map_congr_left
  intro i _
  simp [Function.comp, Function.iterate_succ_apply]

lemma notifyOneRun_spec (obs : List (Nat × Nat)) (n : Nat) :
    notifyOneRun n obs =
      ((List.range
          (obs.takeWhile (fun o => decide (0 < o.1 ∧ o.2 = 0))).length).map
            (fun i => backoffStep^[i] n),
        obs.any (fun o => !decide (0 < o.1 ∧ o.2 = 0))) := by
  induction obs generalizing n with
  | nil => rfl
  | cons o rest ih =>
    obtain ⟨w, woken⟩ := o
    by_cases hc : 0 < w ∧ woken = 0
    · have h1 : notifyOneRun n ((w, woken) :: rest)
          = (n :: (notifyOneRun (backoffStep n) rest).1,
             (notifyOneRun (backoffStep n) rest).2) := by
        simp [notifyOneRun, hc]
      have htake : ((w, woken) :: rest).takeWhile
            (fun o => decide (0 < o.1 ∧ o.2 = 0))
          = (w, woken) :: rest.takeWhile (fun o => decide (0 < o.1 ∧ o.2 = 0)) := by
        simp [List.takeWhile_cons, hc]
      have hany : ((w, woken) :: rest).any (fun o => !decide (0 < o.1 ∧ o.2 = 0))
          = rest.any (fun o => !decide (0 < o.1 ∧ o.2 = 0)) := by
        simp [hc]
      rw [h1, ih, htake, hany, List.length_cons]
      exact congrArg₂ _ (iterate_range_cons backoffStep n _) rfl
    · have h1 : notifyOneRun n ((w, woken) :: rest) = ([], true) := by
        simp only [notifyOneRun, if_neg hc]
      have htake : ((w, woken) :: rest).takeWhile
            (fun o => decide (0 < o.1 ∧ o.2 = 0)) = [] := by
        simp [List.takeWhile_cons, hc]
      have hany : ((w, woken) :: rest).any (fun o => !decide (0 < o.1 ∧ o.2 = 0))
          = true := by
        simp
        exact Or.inl (by omega)
      rw [h1, htake, hany]
      rfl

lemma notifyAllRun_spec (obs : List (Nat × Nat)) (n : Nat) :
    notifyAllRun n obs =
      ((List.range
          (obs.takeWhile (fun o => !decide (o.1 = 0 ∨ o.2 = o.1))).length).map
            (fun i => backoffStep^[i] n),
        obs.any (fun o => decide (o.1 = 0 ∨ o.2 = o.1))) := by
  induction obs generalizing n with
  | nil => rfl
  | cons o rest ih =>
    obtain ⟨toWake, woken⟩ := o
    by_cases hc : toWake = 0 ∨ woken = toWake
    · have h1 : notifyAllRun n ((toWake, woken) :: rest) = ([], true) := by
        simp only [notifyAllRun, if_pos hc]
      have htake : ((toWake, woken) :: rest).takeWhile
            (fun o => !decide (o.1 = 0 ∨ o.2 = o.1)) = [] := by
        simp
        tauto
      have hany : ((toWake, woken) :: rest).any
            (fun o => decide (o.1 = 0 ∨ o.2 = o.1)) = true := by
        simp [hc]
      rw [h1, htake, hany]
      rfl
    · have h1 : notifyAllRun n ((toWake, woken) :: rest)
          = (n :: (notifyAllRun (backoffStep n) rest).1,
             (notifyAllRun (backoffStep n) rest).2) := by
        simp [notifyAllRun, hc]
      have htake : ((toWake, woken) :: rest).takeWhile
            (fun o => !decide (o.1 = 0 ∨ o.2 = o.1))
          = (toWake, woken)
              :: rest.takeWhile (fun o => !decide (o.1 = 0 ∨ o.2 = o.1)) := by
        refine List.takeWhile_cons_of_pos ?_
        simp
        tauto
      have hany : ((toWake, woken) :: rest).any
            (fun o => decide (o.1 = 0 ∨ o.2 = o.1))
          = rest.any (fun o => decide (o.1 = 0 ∨ o.2 = o.1)) := by
        simp [hc]
      rw [h1, ih, htake, hany, List.length_cons]
      exact congrArg₂ _ (iterate_range_cons backoffStep n _) rfl

/-- C8: the notify backoff sleeps 50 µs, 75 µs, 100 µs, …, growing by exactly
25 µs per retry and capped at 200 µs (every sleep from the 7th on is exactly
200 µs); `notify_one` retries until the waiter count is zero or the kernel
confirms at least one woken waiter, `notify_all` until the count is zero or
the kernel confirms waking all counted waiters, sleeping one backoff quantum
per retry. -/
theorem condvar_notify_backoff_contract :
    (∀ i : Nat, nthBackoff i = min (50 + 25 * i) 200) ∧
    (nthBackoff 0 = 50 ∧ ∀ i : Nat, i < 6 → nthBackoff (i + 1) = nthBackoff i + 25) ∧
    (∀ i : Nat, nthBackoff i ≤ 200) ∧
    (∀ i : Nat, 6 ≤ i → nthBackoff i = 200) ∧
    (∀ obs : List (Nat × Nat),
      notifyOneRun backoffInit obs =
        ((List.range
            (obs.takeWhile (fun o => decide (0 < o.1 ∧ o.2 = 0))).length).map
              nthBackoff,
          obs.any (fun o => !decide (0 < o.1 ∧ o.2 = 0)))) ∧
    (∀ obs : List (Nat × Nat),
      notifyAllRun backoffInit obs =
        ((List.range
            (obs.takeWhile (fun o => !decide (o.1 = 0 ∨ o.2 = o.1))).length).map
              nthBackoff,
          obs.any (fun o => decide (o.1 = 0 ∨ o.2 = o.1)))) := by
  refine ⟨nthBackoff_closed_form, ⟨rfl, ?_⟩, ?_, ?_, ?_, ?_⟩
  · intro i hi
    rw [nthBackoff_closed_form, nthBackoff_closed_form]
    omega
  · intro i
    rw [nthBackoff_closed_form]
    omega
  · intro i hi
    rw [nthBackoff_closed_form]
    omega
  · intro obs
    rw [notifyOneRun_spec]
    rfl
  · intro obs
    rw [notifyAllRun_spec]
    rfl

/-- Witness for C8: eight retries against a stubborn kernel sleep
50..200 µs and the ninth sleep is capped at 200 µs. -/
theorem condvar_notify_backoff_contract_witness :
    (6 : Nat) ≤ 8 ∧ nthBackoff 8 = 200 :=
  ⟨by decide, condvar_notify_backoff_contract.2.2.2.1 8 (by decide)⟩

/-!  `event_map.rs`: the temporal event map.  The `BTreeMap<K, V>` is
modelled as its sorted association list (keys strictly increasing); the
`range(..=key)`/`range(key..)` boundary queries become the last/first entry
of the corresponding filtered sublist; keys are `Int`, deltas are `Int`. -/

/-- `event_map::EventValue` (key point, value, delta to the queried key). -/
structure EventValue (V : Type) where
  key : Int
  value : V
  delta : Int
  deriving Repr

/-- `event_map::EventMap`. -/
structure EventMap (V : Type) where
  data : List (Int × V)
  maxDelta : Option Int

/-- `self.data.range(..=key).next_back()`: the greatest key `≤ key`. -/
def EventMap.lowerKey (m : EventMap V) (key : Int) : Option Int :=
  ((m.data.filter (fun e => decide (e.1 ≤ key))).map Prod.fst).getLast?

/-- `self.data.range(key..).next()`: the least key `≥ key`. -/
def EventMap.upperKey (m : EventMap V) (key : Int) : Option Int :=
  ((m.data.filter (fun e => decide (key ≤ e.1))).map Prod.fst).head?

/-- The `EventKey` candidate of `get_closest_to` (key and delta), before the
`max_delta` check. -/
def EventMap.closestKey (m : EventMap V) (key : Int) : Option (Int × Int) :=
  match m.lowerKey key, m.upperKey key with
  | some l, some u =>
    let lowerDiff := key - l
    let upperDiff := u - key
    if lowerDiff ≤ upperDiff then some (l, lowerDiff) else some (u, upperDiff)
  | some l, none => some (l, key - l)
  | none, some u => some (u, u - key)
  | none, none => none

/-- `EventMap::get_closest_to` (event_map.rs lines 99-152). -/
def EventMap.getClosestTo (m : EventMap V) (key : Int) : Option (EventValue V) :=
  let checked : Option (Int × Int) :=
    match m.maxDelta, m.closestKey key with
    | some md, some c => if md < c.2 then none else some c
    | _, c => c
  checked.bind (fun c =>
    (m.data.find? (fun e => e.1 == c.1)).map
      (fun e => { key := c.1, value := e.2, delta := c.2 }))

/-- `EventMap::cleanup`: `split_off(&key)` keeps exactly the entries with
key `≥ key`. -/
def EventMap.cleanup (m : EventMap V) (key : Int) : EventMap V :=
  { m with data := m.data.filter (fun e => decide (key ≤ e.1)) }

lemma pairwise_lt_le_getLast (l : List Int) (hp : l.Pairwise (· < ·)) :
    ∀ x ∈ l, ∀ g, l.getLast? = some g → x ≤ g := by
  induction l with
  | nil => intro x hx; cases hx
  | cons a t ih =>
    intro x hx g hg
    cases t with
    | nil =>
      simp only [List.getLast?_singleton, Option.some_inj] at hg
      simp only [List.mem_singleton] at hx
      omega
    | cons b t2 =>
      rw [List.getLast?_cons_cons] at hg
      rcases List.mem_cons.mp hx with rfl | hx
      · have hmem : g ∈ b :: t2 := List.mem_of_mem_getLast? (by simp [hg])
        have := (List.pairwise_cons.mp hp).1 g hmem
        omega
      · exact ih (List.pairwise_cons.mp hp).2 x hx g hg

lemma pairwise_lt_head_le (l : List Int) (hp : l.Pairwise (· < ·)) :
    ∀ x ∈ l, ∀ hd, l.head? = some hd → hd ≤ x := by
  intro x hx hd hph
  cases l with
  | nil => cases hx
  | cons a t =>
    simp only [List.head?_cons, Option.some_inj] at hph
    subst hph
    rcases List.mem_cons.mp hx with rfl | hx
    · omega
    · have := (List.pairwise_cons.mp hp).1 x hx
      omega

lemma lowerKey_spec (m : EventMap V) (key : Int)
    (hs : m.data.Pairwise (fun a b => a.1 < b.1)) (l : Int)
    (h : m.lowerKey key = some l) :
    l ∈ m.data.map Prod.fst ∧ l ≤ key ∧
      ∀ e ∈ m.data, e.1 ≤ key → e.1 ≤ l := by
  have hplt : ((m.data.filter (fun e => decide (e.1 ≤ key))).map
      Prod.fst).Pairwise (· < ·) := by
    rw [List.pairwise_map]
    exact List.Pairwise.sublist (List.filter_sublist _) hs
  have hlmem : l ∈ (m.data.filter (fun e => decide (e.1 ≤ key))).map
      Prod.fst :=
    List.mem_of_mem_getLast? (show _ = some l from h)
  obtain ⟨e, hef, he1⟩ := List.mem_map.mp hlmem
  have hekey : e.1 ≤ key := by
    have := (List.mem_filter.mp hef).2
    simpa using this
  refine ⟨List.mem_map.mpr ⟨e, (List.mem_filter.mp hef).1, he1⟩, ?_, ?_⟩
  · omega
  · intro e' he' hle
    have hmem : e'.1 ∈ (m.data.filter (fun e => decide (e.1 ≤ key))).map
        Prod.fst :=
      List.mem_map.mpr ⟨e', List.mem_filter.mpr ⟨he', by simpa using hle⟩, rfl⟩
    exact pairwise_lt_le_getLast _ hplt _ hmem _ h

lemma upperKey_spec (m : EventMap V) (key : Int)
    (hs : m.data.Pairwise (fun a b => a.1 < b.1)) (u : Int)
    (h : m.upperKey key = some u) :
    u ∈ m.data.map Prod.fst ∧ key ≤ u ∧
      ∀ e ∈ m.data, key ≤ e.1 → u ≤ e.1 := by
  have hplt : ((m.data.filter (fun e => decide (key ≤ e.1))).map
      Prod.fst).Pairwise (· < ·) := by
    rw [List.pairwise_map]
    exact List.Pairwise.sublist (List.filter_sublist _) hs
  have humem : u ∈ (m.data.filter (fun e => decide (key ≤ e.1))).map
      Prod.fst :=
    List.mem_of_mem_head? (show _ = some u from h)
  obtain ⟨e, hef, he1⟩ := List.mem_map.mp humem
  have hekey : key ≤ e.1 := by
    have := (List.mem_filter.mp hef).2
    simpa using this
  refine ⟨List.mem_map.mpr ⟨e, (List.mem_filter.mp hef).1, he1⟩, ?_, ?_⟩
  · omega
  · intro e' he' hle
    have hmem : e'.1 ∈ (m.data.filter (fun e => decide (key ≤ e.1))).map
        Prod.fst :=
      List.mem_map.mpr ⟨e', List.mem_filter.mpr ⟨he', by simpa using hle⟩, rfl⟩
    exact pairwise_lt_head_le _ hplt _ hmem _ h

lemma lowerKey_none (m : EventMap V) (key : Int)
    (h : m.lowerKey key = none) : ∀ e ∈ m.data, key < e.1 := by
  unfold EventMap.lowerKey at h
  rw [List.getLast?_eq_none_iff, List.map_eq_nil_iff, List.filter_eq_nil_iff] at h
  intro e he
  have := h e he
  simp at this
  omega

lemma upperKey_none (m : EventMap V) (key : Int)
    (h : m.upperKey key = none) : ∀ e ∈ m.data, e.1 < key := by
  unfold EventMap.upperKey at h
  rw [List.head?_eq_none_iff, List.map_eq_nil_iff, List.filter_eq_nil_iff] at h
  intro e he
  have := h e he
  simp at this
  omega

lemma find?_of_mem_keys (data : List (Int × V)) (c : Int)
    (hc : c ∈ data.map Prod.fst) :
    ∃ e, data.find? (fun e => e.1 == c) = some e ∧ e.1 = c ∧ e ∈ data := by
  obtain ⟨e0, he0, he0c⟩ := List.mem_map.mp hc
  have hsome : (data.find? (fun e => e.1 == c)).isSome := by
    rw [List.find?_isSome]
    exact ⟨e0, he0, by simp [he0c]⟩
  obtain ⟨e, he⟩ := Option.isSome_iff_exists.mp hsome
  refine ⟨e, he, ?_, List.mem_of_find?_eq_some he⟩
  have := List.find?_some he
  simpa using this

lemma closestKey_spec (m : EventMap V) (key : Int)
    (hs : m.data.Pairwise (fun a b => a.1 < b.1)) (hne : m.data ≠ []) :
    ∃ c δ, m.closestKey key = some (c, δ) ∧ c ∈ m.data.map Prod.fst ∧
      δ = |c - key| ∧ (∀ e ∈ m.data, |c - key| ≤ |e.1 - key|) ∧
      (∀ e ∈ m.data, |e.1 - key| = |c - key| → c ≤ e.1) := by
  have habs1 : ∀ a b : Int, a ≤ b → |a - b| = b - a := by
    intro a b hab
    rw [abs_sub_comm]
    exact abs_of_nonneg (by omega)
  have habs2 : ∀ a b : Int, b ≤ a → |a - b| = a - b := fun a b hab =>
    abs_of_nonneg (by omega)
  unfold EventMap.closestKey
  cases hl : m.lowerKey key with
  | none =>
    cases hu : m.upperKey key with
    | none =>
      obtain ⟨e, he⟩ := List.exists_mem_of_ne_nil m.data hne
      have h1 := lowerKey_none m key hl e he
      have h2 := upperKey_none m key hu e he
      exact ((by omega : False)).elim
    | some u =>
      obtain ⟨humem, hukey, humin⟩ := upperKey_spec m key hs u hu
      have hlt := lowerKey_none m key hl
      refine ⟨u, u - key, rfl, humem, (habs2 u key hukey).symm, ?_, ?_⟩
      · intro e he
        have h1 := hlt e he
        have h2 := humin e he (by omega)
        rw [habs2 u key hukey, habs2 e.1 key (by omega)]
        omega
      · intro e he heq
        have h1 := hlt e he
        have h2 := humin e he (by omega)
        omega
  | some l =>
    obtain ⟨hlmem, hlkey, hlmax⟩ := lowerKey_spec m key hs l hl
    cases hu : m.upperKey key with
    | none =>
      have hgt := upperKey_none m key hu
      refine ⟨l, key - l, rfl, hlmem, (habs1 l key hlkey).symm, ?_, ?_⟩
      · intro e he
        have h1 := hgt e he
        have h2 := hlmax e he (by omega)
        rw [habs1 l key hlkey, habs1 e.1 key (by omega)]
        omega
      · intro e he heq
        have h1 := hgt e he
        have h2 := hlmax e he (by omega)
        rw [habs1 l key hlkey, habs1 e.1 key (by omega)] at heq
        omega
    | some u =>
      obtain ⟨humem, hukey, humin⟩ := upperKey_spec m key hs u hu
      dsimp only
      by_cases hcmp : key - l ≤ u - key
      · rw [if_pos hcmp]
        refine ⟨l, key - l, rfl, hlmem, (habs1 l key hlkey).symm, ?_, ?_⟩
        · intro e he
          rw [habs1 l key hlkey]
          rcases Int.le_total e.1 key with h1 | h1
          · have h2 := hlmax e he h1
            rw [habs1 e.1 key h1]
            omega
          · have h2 := humin e he h1
            rw [habs2 e.1 key h1]
            omega
        · intro e he heq
          rw [habs1 l key hlkey] at heq
          rcases Int.le_total e.1 key with h1 | h1
          · have h2 := hlmax e he h1
            rw [habs1 e.1 key h1] at heq
            omega
          · have h2 := humin e he h1
            rw [habs2 e.1 key h1] at heq
            omega
      · rw [if_neg hcmp]
        refine ⟨u, u - key, rfl, humem, (habs2 u key hukey).symm, ?_, ?_⟩
        · intro e he
          rw [habs2 u key hukey]
          rcases Int.le_total e.1 key with h1 | h1
          · have h2 := hlmax e he h1
            rw [habs1 e.1 key h1]
            omega
          · have h2 := humin e he h1
            rw [habs2 e.1 key h1]
            omega
        · intro e he heq
          rw [habs2 u key hukey] at heq
          rcases Int.le_total e.1 key with h1 | h1
          · have h2 := hlmax e he h1
            rw [habs1 e.1 key h1] at heq
            omega
          · have h2 := humin e he h1
            rw [habs2 e.1 key h1] at heq
            omega

/-- C9: on a non-empty sorted event map, `get_closest_to(k)` returns the
entry whose key minimises the absolute distance to `k` (lower key winning
ties) together with that delta; with a configured maximum delta the result
is `None` exactly when the minimal distance exceeds it; and `cleanup(k)`
removes exactly the entries with key `< k`. -/
theorem eventMap_closest_and_cleanup_contract (V : Type) (m : EventMap V)
    (key : Int) (hs : m.data.Pairwise (fun a b => a.1 < b.1)) :
    (m.data ≠ [] →
      (∀ md, m.maxDelta = some md → ∃ e ∈ m.data, |e.1 - key| ≤ md) →
      ∃ ev, m.getClosestTo key = some ev ∧
        (ev.key, ev.value) ∈ m.data ∧
        ev.delta = |ev.key - key| ∧
        (∀ e ∈ m.data, |ev.key - key| ≤ |e.1 - key|) ∧
        (∀ e ∈ m.data, |e.1 - key| = |ev.key - key| → ev.key ≤ e.1)) ∧
    (∀ md, m.maxDelta = some md →
      (∀ e ∈ m.data, md < |e.1 - key|) → m.getClosestTo key = none) ∧
    (∀ e : Int × V, e ∈ (m.cleanup key).data ↔ e ∈ m.data ∧ key ≤ e.1) := by
  refine ⟨?_, ?_, ?_⟩
  · intro hne hmd
    obtain ⟨c, δ, hck, hcmem, hcδ, hcmin, hctie⟩ := closestKey_spec m key hs hne
    obtain ⟨e, hfind, he1, hemem⟩ := find?_of_mem_keys m.data c hcmem
    have hget : m.getClosestTo key = some ⟨c, e.2, δ⟩ := by
      unfold EventMap.getClosestTo
      cases hmx : m.maxDelta with
      | none => simp [hck, hfind]
      | some md =>
        obtain ⟨e', he', he'md⟩ := hmd md hmx
        have h1 := hcmin e' he'
        have hno : ¬ md < δ := by omega
        simp [hck, hno, hfind]
    refine ⟨⟨c, e.2, δ⟩, hget, ?_, hcδ, hcmin, hctie⟩
    show (c, e.2) ∈ m.data
    rw [← he1, Prod.mk.eta]
    exact hemem
  · intro md hmx hall
    by_cases hne : m.data = []
    · have hcknone : m.closestKey key = none := by
        unfold EventMap.closestKey EventMap.lowerKey EventMap.upperKey
        rw [hne]
        rfl
      unfold EventMap.getClosestTo
      simp [hmx, hcknone]
    · obtain ⟨c, δ, hck, hcmem, hcδ, hcmin, hctie⟩ := closestKey_spec m key hs hne
      obtain ⟨e0, he0mem, he0c⟩ := List.mem_map.mp hcmem
      have hδmd : md < δ := by
        have := hall e0 he0mem
        rw [he0c] at this
        omega
      unfold EventMap.getClosestTo
      simp [hmx, hck, hδmd]
  · intro e
    simp [EventMap.cleanup, List.mem_filter]

/-- Witness for C9 on the map `{1 ↦ "a", 3 ↦ "b", 7 ↦ "d"}` queried at 4:
the closest entry exists (it is `(3, "b")` at delta 1) and `cleanup 4` keeps
exactly the entry with key 7. -/
theorem eventMap_closest_and_cleanup_contract_witness :
    ((3, "b") ∈ (EventMap.cleanup
        { data := [(1, "a"), (3, "b"), (7, "d")], maxDelta := none } 4).data
      ↔ ((3, "b") ∈ [((1 : Int), "a"), (3, "b"), (7, "d")] ∧ (4 : Int) ≤ 3)) ∧
    ∃ ev, EventMap.getClosestTo
        { data := [(1, "a"), (3, "b"), (7, "d")], maxDelta := none } 4 = some ev ∧
      (ev.key, ev.value) ∈ [((1 : Int), "a"), (3, "b"), (7, "d")] ∧
      ev.delta = |ev.key - 4| ∧
      (∀ e ∈ [((1 : Int), "a"), (3, "b"), (7, "d")], |ev.key - 4| ≤ |e.1 - 4|) ∧
      (∀ e ∈ [((1 : Int), "a"), (3, "b"), (7, "d")],
        |e.1 - 4| = |ev.key - 4| → ev.key ≤ e.1) := by
  have h := eventMap_closest_and_cleanup_contract String
    { data := [(1, "a"), (3, "b"), (7, "d")], maxDelta := none } 4
    (by simp)
  exact ⟨h.2.2 (3, "b"), h.1 (by simp) (by intro md hmd; cases hmd)⟩

/-!  `lib.rs` / `ddp.rs`: the error taxonomy and the `DeliveryPolicy`
string round trip. -/

/-- `crate::Error` (payload-carrying variants keep their message text). -/
inductive RtscError where
  | ChannelFull
  | ChannelSkipped
  | ChannelClosed
  | ChannelEmpty
  | Unimplemented
  | Timeout
  | InvalidData (text : String)
  | Failed (text : String)
  | AccessDenied
  | IOError (text : String)
  | RTSchedSetAffinity (text : String)
  | RTSchedSetScheduler (text : String)
  deriving DecidableEq, Repr

deriving instance DecidableEq for Except

/-- Rust `str::to_lowercase`, on the ASCII keywords the policy parser uses. -/
def toLowercase (s : String) : String :=
  ⟨s.data.map Char.toLower⟩

/-- `impl FromStr for DeliveryPolicy` (ddp.rs lines 22-34). -/
def DeliveryPolicy.fromStr (s : String) : Except RtscError DeliveryPolicy :=
  if toLowercase s = "always" then Except.ok DeliveryPolicy.Always
  else if toLowercase s = "optional" then Except.ok DeliveryPolicy.Optional
  else if toLowercase s = "single" then Except.ok DeliveryPolicy.Single
  else if toLowercase s = "single-optional" then
    Except.ok DeliveryPolicy.SingleOptional
  else Except.error (RtscError.InvalidData s)

/-- `impl Display for DeliveryPolicy` (ddp.rs lines 36-50). -/
def DeliveryPolicy.display : DeliveryPolicy → String
  | DeliveryPolicy.Always => "always"
  | DeliveryPolicy.Latest => "latest"
  | DeliveryPolicy.Optional => "optional"
  | DeliveryPolicy.Single => "single"
  | DeliveryPolicy.SingleOptional => "single-optional"

/-- C10: parsing accepts exactly the case-insensitive keywords "always",
"optional", "single", "single-optional", returns `InvalidData` on every
other input, and `from_str ∘ to_string` is the identity on every class
except `Latest`, whose rendering "latest" is rejected with `InvalidData`. -/
theorem deliveryPolicy_parse_contract :
    (∀ s : String,
      (∃ p, DeliveryPolicy.fromStr s = Except.ok p) ↔
        toLowercase s ∈ ["always", "optional", "single", "single-optional"]) ∧
    (∀ s : String,
      toLowercase s ∉ ["always", "optional", "single", "single-optional"] →
        DeliveryPolicy.fromStr s = Except.error (RtscError.InvalidData s)) ∧
    (∀ p : DeliveryPolicy, p ≠ DeliveryPolicy.Latest →
      DeliveryPolicy.fromStr p.display = Except.ok p) ∧
    DeliveryPolicy.fromStr DeliveryPolicy.Latest.display
      = Except.error (RtscError.InvalidData "latest") := by
  refine ⟨?_, ?_, ?_, by decide⟩
  · intro s
    constructor
    · rintro ⟨p, hp⟩
      unfold DeliveryPolicy.fromStr at hp
      split_ifs at hp with h1 h2 h3 h4
      · simp [h1]
      · simp [h2]
      · simp [h3]
      · simp [h4]
    · intro hmem
      simp only [List.mem_cons, List.not_mem_nil, or_false] at hmem
      unfold DeliveryPolicy.fromStr
      rcases hmem with h | h | h | h <;> rw [h] <;> exact ⟨_, rfl⟩
  · intro s hmem
    unfold DeliveryPolicy.fromStr
    split_ifs with h1 h2 h3 h4
    · exact absurd (by simp [h1]) hmem
    · exact absurd (by simp [h2]) hmem
    · exact absurd (by simp [h3]) hmem
    · exact absurd (by simp [h4]) hmem
    · rfl
  · intro p hp
    cases p <;> first | (exact by decide) | exact absurd rfl hp

/-- Witness for C10: "Always" parses case-insensitively, the `Single` round
trip holds, and "unknown" is rejected as `InvalidData`. -/
theorem deliveryPolicy_parse_contract_witness :
    DeliveryPolicy.fromStr DeliveryPolicy.Single.display
        = Except.ok DeliveryPolicy.Single ∧
      DeliveryPolicy.fromStr "unknown"
        = Except.error (RtscError.InvalidData "unknown") :=
  ⟨deliveryPolicy_parse_contract.2.2.1 DeliveryPolicy.Single (by decide),
    deliveryPolicy_parse_contract.2.1 "unknown" (by decide)⟩

/-!  `base_channel.rs`: the synchronous channel around an arbitrary storage
(instantiated here with the policy deque).  Parked threads are modelled by
explicit per-condvar waiter counts: producers blocked inside
`send`/`send_timeout` park on `space_available` (base_channel.rs line 175),
consumers blocked inside `recv`/`recv_timeout` park on `data_available`
(line 237). -/

/-- The two condition variables of a sync channel. -/
inductive CondvarId where
  | dataAvailable
  | spaceAvailable
  deriving DecidableEq, Repr

/-- Sync channel state: storage, handle counts, and the number of threads
parked on each condvar. -/
structure SyncChannel (α : Type) where
  queue : Deque α
  senders : Nat
  receivers : Nat
  sendersParked : Nat
  receiversParked : Nat
  deriving Repr, DecidableEq

/-- `notify_all` on one of the two condvars releases exactly the waiters
parked on it (the notify loop itself is verified as C8). -/
def SyncChannel.notifyAllOn (s : SyncChannel α) : CondvarId → SyncChannel α
  | CondvarId.dataAvailable => { s with receiversParked := 0 }
  | CondvarId.spaceAvailable => { s with sendersParked := 0 }

/-- `impl Drop for BaseReceiver` (base_channel.rs lines 489-503): decrement
`receivers`; when the count reaches zero, `notify_all` on `data_available`
(this is what the source does — not `space_available`). -/
def SyncChannel.receiverDrop (s : SyncChannel α) : SyncChannel α :=
  let s := { s with receivers := s.receivers - 1 }
  if s.receivers = 0 then s.notifyAllOn CondvarId.dataAvailable else s

/-- `impl Drop for BaseSender` (base_channel.rs lines 389-403): decrement
`senders`; when the count reaches zero, `notify_all` on `data_available`. -/
def SyncChannel.senderDrop (s : SyncChannel α) : SyncChannel α :=
  let s := { s with senders := s.senders - 1 }
  if s.senders = 0 then s.notifyAllOn CondvarId.dataAvailable else s

/-- C2, evaluated at the failing input: a capacity-1 channel whose queue is
full, with one producer parked on `space_available`, loses that producer
when the last receiver is dropped: the drop handler notifies
`data_available`, so the parked producer is NOT released (it would have to
be woken via `space_available` to observe `receivers = 0` and fail with
`ChannelClosed`).  A receiver drop wired to `space_available` as the claim
states would have released it. -/
theorem receiverDrop_does_not_release_blocked_senders :
    let s : SyncChannel Msg :=
      { queue :=
          { data := [{ policy := .Always, prio := 100, kind := 0, expired := false }],
            capacity := 1, ordered := false },
        senders := 1, receivers := 1, sendersParked := 1, receiversParked := 0 }
    (SyncChannel.receiverDrop s).receivers = 0 ∧
      (SyncChannel.receiverDrop s).sendersParked = 1 ∧
      ((({ s with receivers := 0 } : SyncChannel Msg).notifyAllOn
          CondvarId.spaceAvailable).sendersParked = 0) := by
  decide

/-!  `cell/`: the rendezvous cells.  The wait loop of `get`/`get_timeout`
re-checks only the primary slot after each wakeup; the `closed` flag is
examined once, on entry.  `fuel` bounds the number of wakeups observed by a
blocked consumer (no producer interleaves). -/

/-- `datacell::CellValue`. -/
structure CellValue (P : Type) where
  current : Option P
  closed : Bool
  deriving Repr, DecidableEq

/-- The wait loop of `DataCell::get` (datacell.rs lines 100-107), resumed on
each wakeup: take the primary when present, otherwise wait again.  `none`
means the consumer is still blocked after `fuel` wakeups. -/
def DataCell.getLoop (s : CellValue P) : Nat → Option (P × CellValue P)
  | 0 => none
  | fuel + 1 =>
    match s.current with
    | some c => some (c, { s with current := none })
    | none => DataCell.getLoop s fuel

/-- `DataCell::get` (datacell.rs lines 95-108): the entry `closed` check,
then the wait loop; `none` when still blocked. -/
def DataCell.get (s : CellValue P) (fuel : Nat) :
    Option (Except RtscError P × CellValue P) :=
  if s.closed then some (Except.error RtscError.ChannelClosed, s)
  else (DataCell.getLoop s fuel).map (fun r => (Except.ok r.1, r.2))

/-- `DataCell::get_timeout` (datacell.rs lines 110-128): as `get`, but a
wait that exhausts the deadline surfaces `Timeout`. -/
def DataCell.getTimeout (s : CellValue P) (fuel : Nat) :
    Except RtscError P × CellValue P :=
  if s.closed then (Except.error RtscError.ChannelClosed, s)
  else
    match DataCell.getLoop s fuel with
    | some r => (Except.ok r.1, r.2)
    | none => (Except.error RtscError.Timeout, s)

/-- `DataCell::try_get` (datacell.rs lines 130-136). -/
def DataCell.tryGet (s : CellValue P) : Except RtscError P × CellValue P :=
  if s.closed then (Except.error RtscError.ChannelClosed, s)
  else
    match s.current with
    | some c => (Except.ok c, { s with current := none })
    | none => (Except.error RtscError.ChannelEmpty, s)

/-- `DataCell::close` (datacell.rs lines 71-75): latch the flag; the
accompanying `notify_all` re-enters blocked consumers into their loop. -/
def DataCell.close (s : CellValue P) : CellValue P :=
  { s with closed := true }

/-- `coupler::CellValue` (primary plus the secondary side slot). -/
structure CouplerValue (P S : Type) where
  primary : Option P
  second : Option S
  closed : Bool
  deriving Repr, DecidableEq

/-- The wait loop of `Coupler::get` (coupler.rs lines 113-120). -/
def Coupler.getLoop (s : CouplerValue P S) :
    Nat → Option ((P × Option S) × CouplerValue P S)
  | 0 => none
  | fuel + 1 =>
    match s.primary with
    | some p => some ((p, s.second), { s with primary := none, second := none })
    | none => Coupler.getLoop s fuel

/-- `Coupler::get` (coupler.rs lines 108-121). -/
def Coupler.get (s : CouplerValue P S) (fuel : Nat) :
    Option (Except RtscError (P × Option S) × CouplerValue P S) :=
  if s.closed then some (Except.error RtscError.ChannelClosed, s)
  else (Coupler.getLoop s fuel).map (fun r => (Except.ok r.1, r.2))

/-- `triplecoupler::CellValue` (primary plus two side slots). -/
structure TripleCouplerValue (P S T : Type) where
  primary : Option P
  second : Option S
  third : Option T
  closed : Bool
  deriving Repr, DecidableEq

/-- The wait loop of `TripleCoupler::get` (triplecoupler.rs lines 126-133). -/
def TripleCoupler.getLoop (s : TripleCouplerValue P S T) :
    Nat → Option ((P × Option S × Option T) × TripleCouplerValue P S T)
  | 0 => none
  | fuel + 1 =>
    match s.primary with
    | some p =>
      some ((p, s.second, s.third),
        { s with primary := none, second := none, third := none })
    | none => TripleCoupler.getLoop s fuel

/-- C3, evaluated on the code: for every cell flavour, a consumer already
blocked inside the `get` wait loop when `close()` latches the flag never
observes it — woken with the primary still empty it waits again, for any
number of wakeups (a `get_timeout` in that situation ends in `Timeout`, not
`Closed`).  Only the entry check sees the flag: fresh `get`/`get_timeout`/
`try_get` calls after `close()` do fail with `Closed`. -/
theorem close_does_not_release_blocked_getters :
    (∀ fuel : Nat,
      DataCell.getLoop (DataCell.close (⟨none, false⟩ : CellValue Nat)) fuel
        = none) ∧
    (∀ fuel : Nat,
      (match DataCell.getLoop (DataCell.close (⟨none, false⟩ : CellValue Nat)) fuel with
        | some r => (Except.ok r.1, r.2)
        | none =>
          (Except.error RtscError.Timeout,
            DataCell.close (⟨none, false⟩ : CellValue Nat)))
        = ((Except.error RtscError.Timeout :
              Except RtscError Nat),
            DataCell.close (⟨none, false⟩ : CellValue Nat))) ∧
    (∀ fuel : Nat,
      Coupler.getLoop (⟨none, none, true⟩ : CouplerValue Nat Nat) fuel = none) ∧
    (∀ fuel : Nat,
      TripleCoupler.getLoop
        (⟨none, none, none, true⟩ : TripleCouplerValue Nat Nat Nat) fuel = none) ∧
    (∀ fuel : Nat,
      DataCell.get (⟨none, true⟩ : CellValue Nat) fuel
        = some (Except.error RtscError.ChannelClosed, ⟨none, true⟩)) ∧
    (DataCell.tryGet (⟨none, true⟩ : CellValue Nat)
        = (Except.error RtscError.ChannelClosed, ⟨none, true⟩)) ∧
    (Coupler.get (⟨none, none, true⟩ : CouplerValue Nat Nat) 0
        = some (Except.error RtscError.ChannelClosed, ⟨none, none, true⟩)) := by
  have hdc : ∀ fuel : Nat,
      DataCell.getLoop (⟨none, true⟩ : CellValue Nat) fuel = none := by
    intro fuel
    induction fuel with
    | zero => rfl
    | succ n ih => simpa [DataCell.getLoop] using ih
  have hcp : ∀ fuel : Nat,
      Coupler.getLoop (⟨none, none, true⟩ : CouplerValue Nat Nat) fuel = none := by
    intro fuel
    induction fuel with
    | zero => rfl
    | succ n ih => simpa [Coupler.getLoop] using ih
  have htc : ∀ fuel : Nat,
      TripleCoupler.getLoop
        (⟨none, none, none, true⟩ : TripleCouplerValue Nat Nat Nat) fuel
        = none := by
    intro fuel
    induction fuel with
    | zero => rfl
    | succ n ih => simpa [TripleCoupler.getLoop] using ih
  refine ⟨hdc, ?_, hcp, htc, ?_, rfl, rfl⟩
  · intro fuel
    have := hdc fuel
    simp only [DataCell.close] at this ⊢
    rw [this]
  · intro fuel
    simp [DataCell.get]

/-!  `base_channel_async.rs`: the asynchronous channel's shared state
(`InnerData`), instantiated with the policy deque.  A waker-queue entry is
`some id` for a future and `none` for a blocking caller's sentinel; the
waker objects themselves carry no state relevant here. -/

/-- `base_channel_async::InnerData`. -/
structure AsyncChannel (α : Type) where
  queue : Deque α
  senders : Nat
  receivers : Nat
  sendWakers : List (Option Nat)
  sendWakerIds : List Nat
  sendPending : List Nat
  recvWakers : List (Option Nat)
  recvWakerIds : List Nat
  recvPending : List Nat
  deriving Repr, DecidableEq

/-- `InnerData::wake_next_recv` (base_channel_async.rs lines 186-196). -/
def AsyncChannel.wakeNextRecv (s : AsyncChannel α) : AsyncChannel α :=
  match s.recvWakers with
  | [] => s
  | w :: rest =>
    match w with
    | some id =>
      { s with recvWakers := rest,
               recvPending := s.recvPending.insert id,
               recvWakerIds := s.recvWakerIds.erase id }
    | none => { s with recvWakers := rest }

/-- `InnerData::wake_next_send` (base_channel_async.rs lines 124-134). -/
def AsyncChannel.wakeNextSend (s : AsyncChannel α) : AsyncChannel α :=
  match s.sendWakers with
  | [] => s
  | w :: rest =>
    match w with
    | some id =>
      { s with sendWakers := rest,
               sendPending := s.sendPending.insert id,
               sendWakerIds := s.sendWakerIds.erase id }
    | none => { s with sendWakers := rest }

/-- `BaseSenderAsync::try_send` (base_channel_async.rs lines 323-336):
closed check, then the storage push; `Pushed` wakes one receiver waiter. -/
def AsyncChannel.trySend (P : Policy α) (s : AsyncChannel α) (v : α) :
    Except RtscError Unit × AsyncChannel α :=
  if s.receivers = 0 then (Except.error RtscError.ChannelClosed, s)
  else
    match s.queue.tryPush P v with
    | (StorageTryPushOutput.Pushed, q) =>
      (Except.ok (), AsyncChannel.wakeNextRecv { s with queue := q })
    | (StorageTryPushOutput.Skipped, q) =>
      (Except.error RtscError.ChannelSkipped, { s with queue := q })
    | (StorageTryPushOutput.Full _, q) =>
      (Except.error RtscError.ChannelFull, { s with queue := q })

/-- `BaseReceiverAsync::try_recv` (base_channel_async.rs lines 506-516):
storage pop (which also discards expired elements); success wakes one sender
waiter. -/
def AsyncChannel.tryRecv (P : Policy α) (s : AsyncChannel α) :
    Except RtscError α × AsyncChannel α :=
  match s.queue.get P with
  | (some v, q) => (Except.ok v, AsyncChannel.wakeNextSend { s with queue := q })
  | (none, q) =>
    if s.senders = 0 then (Except.error RtscError.ChannelClosed, { s with queue := q })
    else (Except.error RtscError.ChannelEmpty, { s with queue := q })

/-- Counterexample to C4: a capacity-1 channel with room in the queue and a
sender future queued in `send_fut_wakers` (reachable: two futures queue on a
full channel, a `recv` pops and moves the first to pending).  The claim says
`try_send` must return `ChannelFull` without pushing; the code pushes and
returns success.  Symmetrically on the receive side with a value in the
queue and a queued receiver future. -/
theorem tryOps_bypass_queued_waiters_counterexample :
    let v : Msg := { policy := .Always, prio := 100, kind := 0, expired := false }
    let s : AsyncChannel Msg :=
      { queue := { data := [], capacity := 1, ordered := false },
        senders := 2, receivers := 1,
        sendWakers := [some 7], sendWakerIds := [7], sendPending := [],
        recvWakers := [], recvWakerIds := [], recvPending := [] }
    let s2 : AsyncChannel Msg :=
      { queue := { data := [v], capacity := 1, ordered := false },
        senders := 1, receivers := 2,
        sendWakers := [], sendWakerIds := [], sendPending := [],
        recvWakers := [some 9], recvWakerIds := [9], recvPending := [] }
    s.sendWakers ≠ [] ∧
      (AsyncChannel.trySend msgPolicy s v).1 = Except.ok () ∧
      ((AsyncChannel.trySend msgPolicy s v).2).queue.data = [v] ∧
      s2.recvWakers ≠ [] ∧
      (AsyncChannel.tryRecv msgPolicy s2).1 = Except.ok v ∧
      ((AsyncChannel.tryRecv msgPolicy s2).2).queue.data = [] := by
  decide

lemma wakeNextRecv_queue (s : AsyncChannel α) :
    (s.wakeNextRecv).queue = s.queue := by
  unfold AsyncChannel.wakeNextRecv
  repeat' split
  all_goals rfl

lemma wakeNextSend_queue (s : AsyncChannel α) :
    (s.wakeNextSend).queue = s.queue := by
  unfold AsyncChannel.wakeNextSend
  repeat' split
  all_goals rfl

/-- C4 as amended: `try_send`/`try_recv` never consult the waker queues.
Their result and their effect on the storage depend only on the handle
counts and the storage itself, whatever waiters are queued; `try_send` fails
`ChannelFull` exactly when the storage rejects the push, and `try_recv`
fails `ChannelEmpty` exactly when the storage yields nothing while senders
remain. -/
theorem tryOps_ignore_waker_queues (P : Policy α) (s₁ s₂ : AsyncChannel α)
    (v : α) (hq : s₁.queue = s₂.queue) (hs : s₁.senders = s₂.senders)
    (hr : s₁.receivers = s₂.receivers) :
    (AsyncChannel.trySend P s₁ v).1 = (AsyncChannel.trySend P s₂ v).1 ∧
    ((AsyncChannel.trySend P s₁ v).2).queue = ((AsyncChannel.trySend P s₂ v).2).queue ∧
    (AsyncChannel.tryRecv P s₁).1 = (AsyncChannel.tryRecv P s₂).1 ∧
    ((AsyncChannel.tryRecv P s₁).2).queue = ((AsyncChannel.tryRecv P s₂).2).queue ∧
    ((AsyncChannel.trySend P s₁ v).1 = Except.error RtscError.ChannelFull ↔
      s₁.receivers ≠ 0 ∧
        ∃ w, (s₁.queue.tryPush P v).1 = StorageTryPushOutput.Full w) ∧
    ((AsyncChannel.tryRecv P s₁).1 = Except.error RtscError.ChannelEmpty ↔
      (s₁.queue.get P).1 = none ∧ s₁.senders ≠ 0) := by
  unfold AsyncChannel.trySend AsyncChannel.tryRecv
  rw [hq, hs, hr]
  refine ⟨?_, ?_, ?_, ?_, ?_, ?_⟩
  · split
    · rfl
    · cases hp : s₂.queue.tryPush P v with
      | mk out q => cases out <;> dsimp only <;> rfl
  · split
    · rw [hq]
    · cases hp : s₂.queue.tryPush P v with
      | mk out q =>
        cases out <;> simp [wakeNextRecv_queue]
  · cases hp : s₂.queue.get P with
    | mk out q =>
      cases out <;> dsimp only
      split <;> rfl
  · cases hp : s₂.queue.get P with
    | mk out q =>
      cases out <;> dsimp only
      · split <;> rfl
      · simp [wakeNextSend_queue]
  · split
    · rename_i h0
      simp [h0]
    · rename_i h0
      cases hp : s₂.queue.tryPush P v with
      | mk out q =>
        cases out <;> dsimp only
        · simp [hp, h0]
        · simp [hp, h0]
        · rename_i w
          simp [hp, h0]
  · cases hp : s₂.queue.get P with
    | mk out q =>
      cases out <;> dsimp only
      · split
        · rename_i h0
          simp [hp, h0]
        · rename_i h0
          simp [hp, h0]
      · simp [hp]

/-- Witness for the amended C4: two concrete states differing only in the
waker queues behave identically under `try_send`, and the `ChannelEmpty`
characterisation holds on an empty live channel. -/
theorem tryOps_ignore_waker_queues_witness :
    (AsyncChannel.trySend msgPolicy
        { queue := { data := [], capacity := 1, ordered := false },
          senders := 1, receivers := 1,
          sendWakers := [some 3], sendWakerIds := [3], sendPending := [],
          recvWakers := [], recvWakerIds := [], recvPending := [] }
        { policy := .Always, prio := 100, kind := 0, expired := false }).1
      = (AsyncChannel.trySend msgPolicy
        { queue := { data := [], capacity := 1, ordered := false },
          senders := 1, receivers := 1,
          sendWakers := [], sendWakerIds := [], sendPending := [],
          recvWakers := [], recvWakerIds := [], recvPending := [] }
        { policy := .Always, prio := 100, kind := 0, expired := false }).1 :=
  (tryOps_ignore_waker_queues msgPolicy
    { queue := { data := [], capacity := 1, ordered := false },
      senders := 1, receivers := 1,
      sendWakers := [some 3], sendWakerIds := [3], sendPending := [],
      recvWakers := [], recvWakerIds := [], recvPending := [] }
    { queue := { data := [], capacity := 1, ordered := false },
      senders := 1, receivers := 1,
      sendWakers := [], sendWakerIds := [], sendPending := [],
      recvWakers := [], recvWakerIds := [], recvPending := [] }
    { policy := .Always, prio := 100, kind := 0, expired := false }
    (by decide) (by decide) (by decide)).1

end Rtsc
